import Mathlib

/-!
Verification of the regatta multi-table storage engine specification and of
the in-memory metadata `MapStore` (package `kv`).

The repository provides the `kv.MapStore` source and the engine's test suite
(`storage/engine_test.go`); the engine implementation itself is not part of
the sources, so the engine is modelled from the specification (section 4.1 of
`spec.md`) with the concrete constants pinned by the test suite: shard ids
are allocated sequentially from 10001, a freshly created table has bootstrap
revision 2 (its first committed write reports revision 3), and range
responses leave the header revision at its zero value.

Byte strings are modelled as `List Nat`; table names as `String`.
-/

namespace Regatta

/-- Opaque byte sequences (keys and values). -/
abbrev Bytes := List Nat

/-- Lexicographic strict order on byte sequences, matching Go's `bytes.Compare < 0`. -/
def bytesLt : Bytes → Bytes → Bool
  | [], [] => false
  | [], _ :: _ => true
  | _ :: _, [] => false
  | a :: as, b :: bs => a < b || (a == b && bytesLt as bs)

/-- Non-strict companion of `bytesLt`. -/
def bytesLe (a b : Bytes) : Bool :=
  !(bytesLt b a)

/-- Membership of a key in the half-open interval `[lo, hi)`. -/
def inHalfOpen (k lo hi : Bytes) : Bool :=
  bytesLe lo k && bytesLt k hi

/-- A key/value pair as returned in responses. -/
structure KeyValue where
  key : Bytes
  value : Bytes
deriving DecidableEq

/-- The per-table key→value map, an association list of distinct keys kept in
insertion structure; lookups scan for the first matching key. -/
abbrev Store := List (Bytes × Bytes)

/-- Look a key up in a store. -/
def storeGet : Store → Bytes → Option Bytes
  | [], _ => none
  | (a, b) :: rest, k => if a == k then some b else storeGet rest k

/-- Set a key in a store, replacing any previous binding (map update). -/
def storePut (st : Store) (k v : Bytes) : Store :=
  (k, v) :: st.filter (fun p => !(p.1 == k))

/-- Modelled from the spec: the delete-range sentinel, "key and rangeEnd both
equal to a single zero byte" (spec section 4.1). -/
def sentinelByte : Bytes := [0]

/-- The pairs a `DeleteRange(key, rangeEnd)` removes: everything under the
all-keys sentinel, the single `key` when `rangeEnd` is unset, otherwise the
half-open range `[key, rangeEnd)` (spec section 4.1). -/
def deleteTargets (st : Store) (key rangeEnd : Bytes) : Store :=
  if key == sentinelByte && rangeEnd == sentinelByte then st
  else if rangeEnd == [] then st.filter (fun p => p.1 == key)
  else st.filter (fun p => inHalfOpen p.1 key rangeEnd)

/-- The pairs remaining after a `DeleteRange(key, rangeEnd)`; the complement
of `deleteTargets`. -/
def deleteRemaining (st : Store) (key rangeEnd : Bytes) : Store :=
  if key == sentinelByte && rangeEnd == sentinelByte then []
  else if rangeEnd == [] then st.filter (fun p => !(p.1 == key))
  else st.filter (fun p => !(inHalfOpen p.1 key rangeEnd))

/-- Modelled from the spec: one replicated table — name, shard id, revision
counter and key/value state (spec section 3, "Table"). -/
structure Table where
  name : String
  shardId : Nat
  revision : Nat
  store : Store
deriving DecidableEq

/-- Modelled from the spec: the engine facade state — this node's replica id,
the next shard id to allocate, and the registered tables (spec sections 3
and 4.1). -/
structure Engine where
  replicaId : Nat
  nextShard : Nat
  tables : List Table
deriving DecidableEq

/-- First table registered under a name. -/
def findTable : List Table → String → Option Table
  | [], _ => none
  | t :: rest, n => if t.name == n then some t else findTable rest n

/-- Replace the first table registered under `n` by `t'`. -/
def updateTable : List Table → String → Table → List Table
  | [], _, _ => []
  | t :: rest, n, t' => if t.name == n then t' :: rest else t :: updateTable rest n t'

/-- Modelled from the spec: error taxonomy of section 7 of `spec.md`
(the engine sources are not in the repository). -/
inductive Err where
  | notFound
  | unavailable
  | timeout
  | compacted
  | integrity
deriving DecidableEq

/-- Which errors a caller may retry (spec section 7): `Unavailable` and
`Timeout` are retryable, `NotFound` is not. -/
def retryable : Err → Bool
  | .unavailable => true
  | .timeout => true
  | _ => false

/-- Response header carried by every successful response (spec section 3,
"ResponseHeader"). -/
structure ResponseHeader where
  shardId : Nat
  replicaId : Nat
  revision : Nat
deriving DecidableEq

structure RangeRequest where
  table : String
  key : Bytes
  rangeEnd : Bytes
  linearizable : Bool
deriving DecidableEq

structure RangeResponse where
  header : ResponseHeader
  kvs : List KeyValue
  count : Nat
deriving DecidableEq

structure PutRequest where
  table : String
  key : Bytes
  value : Bytes
  prevKv : Bool
deriving DecidableEq

structure PutResponse where
  header : ResponseHeader
  prevKv : Option KeyValue
deriving DecidableEq

structure DeleteRangeRequest where
  table : String
  key : Bytes
  rangeEnd : Bytes
  count : Bool
  prevKv : Bool
deriving DecidableEq

structure DeleteRangeResponse where
  header : ResponseHeader
  deleted : Nat
  prevKvs : List KeyValue
deriving DecidableEq

/-- Comparator of a transaction comparison (spec section 4.1): equal,
not-equal, greater, less. -/
inductive Cmp where
  | eq
  | neq
  | gt
  | lt
deriving DecidableEq

/-- Modelled from the spec: a transaction comparison testing a key's value
against an expected value (spec section 4.1; the claims exercise only the
value target, so version/revision targets are not modelled). -/
structure Compare where
  key : Bytes
  result : Cmp
  value : Bytes
deriving DecidableEq

/-- Nested transaction operations, a closed set of tagged variants
(spec section 9). -/
inductive RequestOp where
  | putOp (key value : Bytes) (prevKv : Bool)
  | deleteOp (key rangeEnd : Bytes) (count prevKv : Bool)
  | rangeOp (key rangeEnd : Bytes)
deriving DecidableEq

inductive ResponseOp where
  | putOp (prevKv : Option KeyValue)
  | deleteOp (deleted : Nat) (prevKvs : List KeyValue)
  | rangeOp (kvs : List KeyValue) (count : Nat)
deriving DecidableEq

structure TxnRequest where
  table : String
  compare : List Compare
  success : List RequestOp
  failure : List RequestOp
deriving DecidableEq

structure TxnResponse where
  header : ResponseHeader
  succeeded : Bool
  responses : List ResponseOp
deriving DecidableEq

/-- Evaluate one comparator on an actual and an expected value. -/
def valCmp (c : Cmp) (actual expected : Bytes) : Bool :=
  match c with
  | .eq => actual == expected
  | .neq => !(actual == expected)
  | .gt => bytesLt expected actual
  | .lt => bytesLt actual expected

/-- Modelled from the spec: evaluate one comparison against a state snapshot;
a missing key compares through the defined "absent" sentinel, the empty byte
sequence (spec section 4.1). -/
def evalCompare (st : Store) (c : Compare) : Bool :=
  valCmp c.result ((storeGet st c.key).getD []) c.value

/-- Execute one nested transaction operation against a store, producing the
new store and the operation's response entry. -/
def applyOp (st : Store) : RequestOp → Store × ResponseOp
  | .putOp k v pkv =>
      (storePut st k v,
       .putOp (if pkv then (storeGet st k).map (fun pv => ⟨k, pv⟩) else none))
  | .deleteOp k re cnt pkv =>
      let del := deleteTargets st k re
      (deleteRemaining st k re,
       .deleteOp (if cnt || pkv then del.length else 0)
         (if pkv then del.map (fun p => ⟨p.1, p.2⟩) else []))
  | .rangeOp k re =>
      let kvs :=
        if re == [] then
          match storeGet st k with
          | some v => [(⟨k, v⟩ : KeyValue)]
          | none => []
        else (st.filter (fun p => inHalfOpen p.1 k re)).map (fun p => ⟨p.1, p.2⟩)
      (st, .rangeOp kvs kvs.length)

/-- Execute an op-list in request order, threading the store and collecting
one response entry per operation. -/
def runOps (st : Store) : List RequestOp → Store × List ResponseOp
  | [] => (st, [])
  | op :: rest =>
      let r := applyOp st op
      let rs := runOps r.1 rest
      (rs.1, r.2 :: rs.2)

/-- Modelled from the spec: `CreateTable(name)` allocates the next shard id
and registers the table (spec section 4.1). The test suite pins the first
allocated shard id to 10001 and the bootstrap revision to 2 (the first
committed write reports revision 3). Creating an already-registered name is
not constrained by the spec and is modelled as a no-op. -/
def Engine.createTable (e : Engine) (name : String) : Engine :=
  match findTable e.tables name with
  | some _ => e
  | none =>
      { e with
        tables := e.tables ++ [⟨name, e.nextShard, 2, []⟩]
        nextShard := e.nextShard + 1 }

/-- A fresh engine of replica id 1 as configured by the test suite; shard ids
are allocated from the fixed base 10001. -/
def initEngine : Engine :=
  { replicaId := 1, nextShard := 10001, tables := [] }

/-- Revision counter of the table registered under `name`, if any. -/
def Engine.revisionOf (e : Engine) (name : String) : Option Nat :=
  (findTable e.tables name).map Table.revision

/-- Modelled from the spec: `Range` (spec section 4.1) — table-not-found
fails immediately without touching consensus; a linearizable read performs
one read-index round, a serializable read none (the second component counts
consensus rounds). A single-key read of a missing key is an error, matching
the test suite. The test suite pins the response header revision of a range
read to its zero value. -/
def Engine.range (e : Engine) (req : RangeRequest) : Except Err RangeResponse × Nat :=
  match findTable e.tables req.table with
  | none => (.error .notFound, 0)
  | some t =>
      let rounds := if req.linearizable then 1 else 0
      if req.rangeEnd == [] then
        match storeGet t.store req.key with
        | none => (.error .notFound, rounds)
        | some v =>
            (.ok { header := ⟨t.shardId, e.replicaId, 0⟩
                   kvs := [⟨req.key, v⟩]
                   count := 1 }, rounds)
      else
        let kvs := (t.store.filter (fun p => inHalfOpen p.1 req.key req.rangeEnd)).map
          (fun p => (⟨p.1, p.2⟩ : KeyValue))
        (.ok { header := ⟨t.shardId, e.replicaId, 0⟩, kvs := kvs, count := kvs.length },
         rounds)

/-- Modelled from the spec: `Put` (spec section 4.1) — on commit the key is
set and the revision advances by one; `prevKv` returns the prior value when
the key previously existed. -/
def Engine.put (e : Engine) (req : PutRequest) : Except Err (PutResponse × Engine) :=
  match findTable e.tables req.table with
  | none => .error .notFound
  | some t =>
      let prev := storeGet t.store req.key
      let t' := { t with revision := t.revision + 1, store := storePut t.store req.key req.value }
      .ok ({ header := ⟨t'.shardId, e.replicaId, t'.revision⟩
             prevKv := if req.prevKv then prev.map (fun pv => ⟨req.key, pv⟩) else none },
           { e with tables := updateTable e.tables req.table t' })

/-- Modelled from the spec: `DeleteRange` (spec section 4.1) — deletes the
addressed keys, deleting zero keys is not an error; `count` reports the
number deleted, `prevKv` the deleted pairs; the revision advances by one. -/
def Engine.deleteRange (e : Engine) (req : DeleteRangeRequest) :
    Except Err (DeleteRangeResponse × Engine) :=
  match findTable e.tables req.table with
  | none => .error .notFound
  | some t =>
      let del := deleteTargets t.store req.key req.rangeEnd
      let t' := { t with
                  revision := t.revision + 1
                  store := deleteRemaining t.store req.key req.rangeEnd }
      .ok ({ header := ⟨t'.shardId, e.replicaId, t'.revision⟩
             deleted := if req.count || req.prevKv then del.length else 0
             prevKvs := if req.prevKv then del.map (fun p => ⟨p.1, p.2⟩) else [] },
           { e with tables := updateTable e.tables req.table t' })

/-- Modelled from the spec: `Transaction` (spec section 4.1) — all
comparisons are evaluated against one snapshot; if all hold the success
op-list executes, otherwise the failure op-list, atomically as one command;
each nested op yields one response entry in request order; exactly one
revision increment results. -/
def Engine.txn (e : Engine) (req : TxnRequest) : Except Err (TxnResponse × Engine) :=
  match findTable e.tables req.table with
  | none => .error .notFound
  | some t =>
      let succeeded := req.compare.all (evalCompare t.store)
      let r := runOps t.store (if succeeded then req.success else req.failure)
      let t' := { t with revision := t.revision + 1, store := r.1 }
      .ok ({ header := ⟨t'.shardId, e.replicaId, t'.revision⟩
             succeeded := succeeded
             responses := r.2 },
           { e with tables := updateTable e.tables req.table t' })

/-- A client request routed through the engine facade. -/
inductive Request where
  | rangeReq (r : RangeRequest)
  | putReq (r : PutRequest)
  | deleteReq (r : DeleteRangeRequest)
  | txnReq (r : TxnRequest)
deriving DecidableEq

inductive Response where
  | rangeRes (r : RangeResponse)
  | putRes (r : PutResponse)
  | deleteRes (r : DeleteRangeResponse)
  | txnRes (r : TxnResponse)
deriving DecidableEq

/-- One engine step: route a request to the addressed table and return the
result together with the successor engine state; a range read leaves the
state untouched. -/
def Engine.step (e : Engine) : Request → Except Err Response × Engine
  | .rangeReq r => ((e.range r).1.map .rangeRes, e)
  | .putReq r =>
      match e.put r with
      | .error er => (.error er, e)
      | .ok (resp, e') => (.ok (.putRes resp), e')
  | .deleteReq r =>
      match e.deleteRange r with
      | .error er => (.error er, e)
      | .ok (resp, e') => (.ok (.deleteRes resp), e')
  | .txnReq r =>
      match e.txn r with
      | .error er => (.error er, e)
      | .ok (resp, e') => (.ok (.txnRes resp), e')

end Regatta
namespace Kv

/-!
Embedding of the `kv` package's `MapStore` (source file `src/unnamed/part_000`)
and of Go's `path.Match` glob matcher, which `MapStore.GetAll` delegates to.
Strings are handled through their character lists; Go runes are modelled as
`Char`, so the model assumes well-formed text and the `utf8.RuneError`
branch of `getEsc` does not arise.

The recursive parsers consume their chunk or pattern argument but not
structurally (they step through `getEsc` and `scanChunk`), so each carries
an explicit fuel counter; the wrappers supply one more than the argument's
length, which the length lemmas below show is never exhausted. Keeping the
recursion structural in the fuel lets every run evaluate by `decide`.
-/

/-- The zero rune, the value Go's `matchChunk` leaves in `r` when the match
has already failed and no rune is decoded. -/
def nulChar : Char := Char.ofNat 0

/-- `getEsc` of Go's `path` package: read a possibly escaped character out of
a character-class chunk; errors on an empty chunk, a chunk starting with `-`
or `]`, a trailing backslash, or when nothing follows the character (the
class is then unclosed). -/
def getEsc : List Char → Except Unit (Char × List Char)
  | [] => .error ()
  | c :: rest =>
    if c = '-' || c = ']' then .error ()
    else if c = '\\' then
      match rest with
      | [] => .error ()
      | d :: rest2 => if rest2.isEmpty then .error () else .ok (d, rest2)
    else if rest.isEmpty then .error () else .ok (c, rest)

theorem getEsc_length {c : List Char} {r : Char} {rest : List Char}
    (h : getEsc c = .ok (r, rest)) : rest.length < c.length := by
  match c with
  | [] => simp [getEsc] at h
  | a :: tl =>
    simp only [getEsc] at h
    split at h
    · simp at h
    · split at h
      · match tl with
        | [] => simp at h
        | d :: rest2 =>
          simp only at h
          split at h
          · simp at h
          · simp only [Except.ok.injEq, Prod.mk.injEq] at h
            obtain ⟨-, rfl⟩ := h
            simp only [List.length_cons]
            omega
      · split at h
        · simp at h
        · simp only [Except.ok.injEq, Prod.mk.injEq] at h
          obtain ⟨-, rfl⟩ := h
          simp

/-- The character-range parse loop of Go's `matchChunk` (`path/match.go`):
parse `{ character-range }` terminated by `]`, accumulating in `acc` whether
the rune `r` fell in any range; `nrange` counts the ranges parsed; the
result carries the chunk after the closing bracket. -/
def matchRangesF (r : Char) : Nat → List Char → Bool → Nat → Except Unit (Bool × List Char)
  | 0, _, _, _ => .error ()
  | fuel + 1, chunk, acc, nrange =>
    if chunk.head? = some ']' ∧ 0 < nrange then .ok (acc, chunk.tail)
    else
      match getEsc chunk with
      | .error _ => .error ()
      | .ok (lo, chunk1) =>
        if chunk1.head? = some '-' then
          match getEsc chunk1.tail with
          | .error _ => .error ()
          | .ok (hi, chunk2) =>
              matchRangesF r fuel chunk2 (acc || (lo ≤ r && r ≤ hi)) (nrange + 1)
        else matchRangesF r fuel chunk1 (acc || (lo ≤ r && r ≤ lo)) (nrange + 1)

/-- The range parse loop at its standard fuel. -/
def matchRanges (r : Char) (chunk : List Char) (acc : Bool) (nrange : Nat) :
    Except Unit (Bool × List Char) :=
  matchRangesF r (chunk.length + 1) chunk acc nrange

/-- `matchChunk` of Go's `path` package: match a chunk (a section of a
pattern with no unescaped star) against the beginning of `s`, returning the
remainder of `s` and whether the chunk matched; once the match has `failed`
the chunk is still parsed to verify pattern syntax. Errors are the syntax
errors of the chunk. -/
def matchChunkF : Nat → List Char → List Char → Bool → Except Unit (List Char × Bool)
  | 0, _, _, _ => .error ()
  | fuel + 1, chunk, s, failed =>
    match chunk with
    | [] => if failed then .ok ([], false) else .ok (s, true)
    | c0 :: ctail =>
      if c0 = '[' then
        (matchRanges (if failed || s.isEmpty then nulChar else s.headD nulChar)
            (if ctail.head? == some '^' then ctail.tail else ctail) false 0).bind
          (fun pr =>
            matchChunkF fuel pr.2 (if failed || s.isEmpty then s else s.tail)
              ((failed || s.isEmpty) || (pr.1 == (ctail.head? == some '^'))))
      else if c0 = '?' then
        if failed || s.isEmpty then matchChunkF fuel ctail s true
        else matchChunkF fuel ctail s.tail (s.headD nulChar == '/')
      else if c0 = '\\' then
        match ctail with
        | [] => .error ()
        | d :: cmore =>
            if failed || s.isEmpty then matchChunkF fuel cmore s true
            else matchChunkF fuel cmore s.tail (!(d == s.headD nulChar))
      else
        if failed || s.isEmpty then matchChunkF fuel ctail s true
        else matchChunkF fuel ctail s.tail (!(c0 == s.headD nulChar))

/-- The chunk matcher at its standard fuel. -/
def matchChunk (chunk s : List Char) (failed : Bool) : Except Unit (List Char × Bool) :=
  matchChunkF (chunk.length + 1) chunk s failed

/-- Leading stars stripped by `scanChunk`. -/
def dropStars : List Char → List Char
  | '*' :: rest => dropStars rest
  | p => p

/-- The scan loop of Go's `scanChunk`: split the pattern (after its leading
stars) into the next chunk, stopping at an unescaped `*` outside a character
class, and the remaining pattern. -/
def scanBody : Bool → List Char → List Char × List Char
  | _, [] => ([], [])
  | inr, c :: rest =>
    if c = '\\' then
      match rest with
      | [] => ([c], [])
      | d :: rest2 =>
          let pr := scanBody inr rest2
          (c :: d :: pr.1, pr.2)
    else if c = '[' then
      let pr := scanBody true rest
      (c :: pr.1, pr.2)
    else if c = ']' then
      let pr := scanBody false rest
      (c :: pr.1, pr.2)
    else if c = '*' then
      if inr then
        let pr := scanBody inr rest
        (c :: pr.1, pr.2)
      else ([], c :: rest)
    else
      let pr := scanBody inr rest
      (c :: pr.1, pr.2)

/-- `scanChunk` of Go's `path` package: whether the pattern starts with a
star, the first chunk after the stars, and the remaining pattern. -/
def scanChunk (p : List Char) : Bool × List Char × List Char :=
  let body := scanBody false (dropStars p)
  (p.head? == some '*', body.1, body.2)

/-- The star loop of Go's `path.Match`: look for a chunk match starting at
successive positions of the name (never crossing a `/`); `some t` means the
outer loop continues with the remaining name `t`, `none` that the match
fails. `restPat` is the pattern remaining after the current chunk. -/
def starLoop (chunk restPat : List Char) : List Char → Except Unit (Option (List Char))
  | [] => .ok none
  | c :: ntail =>
      if c = '/' then .ok none
      else
        (matchChunk chunk ntail false).bind
          (fun pr =>
            if pr.2 then
              if restPat.isEmpty && !pr.1.isEmpty then starLoop chunk restPat ntail
              else .ok (some pr.1)
            else starLoop chunk restPat ntail)

/-- The remainder-validation loop of Go's `path.Match` (present since
Go 1.16): before returning a false match with no error, every remaining
chunk of the pattern is parsed against the empty name, so a malformed
remainder still surfaces `ErrBadPattern`. -/
def validateRest : Nat → List Char → Except Unit Bool
  | fuel, pattern =>
    if pattern.isEmpty then .ok false
    else
      match fuel with
      | 0 => .error ()
      | fuel + 1 =>
          (matchChunk (scanChunk pattern).2.1 [] false).bind
            (fun _ => validateRest fuel (scanChunk pattern).2.2)

/-- `Match` of Go's `path` package (`path/match.go`): whether `name` matches
the shell pattern; `.error ()` is `ErrBadPattern`. Both failure exits (the
exhausted star loop and the plain chunk mismatch) validate the remaining
pattern through `validateRest` before reporting a false match. -/
def matchPatF : Nat → List Char → List Char → Except Unit Bool
  | fuel, pattern, name =>
    if pattern.isEmpty then .ok name.isEmpty
    else
      match fuel with
      | 0 => .error ()
      | fuel + 1 =>
        if (scanChunk pattern).1 && (scanChunk pattern).2.1.isEmpty then
          .ok (!(name.contains '/'))
        else
          (matchChunk (scanChunk pattern).2.1 name false).bind
            (fun pr =>
              if pr.2 && (pr.1.isEmpty || !(scanChunk pattern).2.2.isEmpty) then
                matchPatF fuel (scanChunk pattern).2.2 pr.1
              else if (scanChunk pattern).1 then
                (starLoop (scanChunk pattern).2.1 (scanChunk pattern).2.2 name).bind
                  (fun o =>
                    match o with
                    | some t' => matchPatF fuel (scanChunk pattern).2.2 t'
                    | none => validateRest fuel (scanChunk pattern).2.2)
              else validateRest fuel (scanChunk pattern).2.2)

/-- `path.Match` at its standard fuel. -/
def matchPat (pattern name : List Char) : Except Unit Bool :=
  matchPatF (pattern.length + 1) pattern name

/-- Syntactic well-formedness of one chunk: a syntax-only run of the chunk
matcher (empty input, `failed` already set); `matchChunkF_isOk_indep` below
shows the matcher errors on a chunk independently of the probed input, so
this is a property of the chunk alone. -/
def chunkOk (chunk : List Char) : Bool :=
  (matchChunk chunk [] true).isOk

/-- Syntactic well-formedness of a whole pattern: every chunk of the pattern
parses; a pattern with `patternOk = false` is malformed in the sense of Go's
`ErrBadPattern` grammar. Runs on the same fuel schedule as `matchPatF`. -/
def patternOkF : Nat → List Char → Bool
  | fuel, pattern =>
    if pattern.isEmpty then true
    else
      match fuel with
      | 0 => false
      | fuel + 1 =>
        if (scanChunk pattern).1 && (scanChunk pattern).2.1.isEmpty then true
        else chunkOk (scanChunk pattern).2.1 && patternOkF fuel (scanChunk pattern).2.2

/-- Pattern well-formedness at the fuel of `matchPat`. -/
def patternOk (pattern : List Char) : Bool :=
  patternOkF (pattern.length + 1) pattern

/-- A key/value/version triple as stored by `MapStore` (the Go `Pair`). -/
structure Pair where
  key : String
  value : String
  ver : Nat
deriving DecidableEq

/-- The zero value `Pair{}` returned by `Get` on a miss. -/
def zeroPair : Pair := ⟨"", "", 0⟩

/-- The `kv` package's `ErrNotExist`. -/
inductive KvError where
  | notExist
deriving DecidableEq

/-- The `MapStore`'s map `m`, modelled extensionally as the list of stored
pairs; the operations keep at most one pair per key, as a Go map does. -/
abbrev MapStore := List Pair

/-- `MapStore.Get`: the pair stored under `key`, or the zero pair together
with `ErrNotExist`. -/
def MapStore.Get (s : MapStore) (key : String) : Pair × Option KvError :=
  match s.find? (fun p => p.key == key) with
  | some p => (p, none)
  | none => (zeroPair, some .notExist)

/-- `MapStore.Set`: store `{key, value, ver}` under `key`, replacing any
previous binding; returns the stored pair and never errors. -/
def MapStore.Set (s : MapStore) (key value : String) (ver : Nat) : Pair × MapStore :=
  (⟨key, value, ver⟩, ⟨key, value, ver⟩ :: s.filter (fun p => !(p.key == key)))

/-- `MapStore.Delete`: remove the binding of `key`; the version argument is
ignored and the returned error is always nil. -/
def MapStore.Delete (s : MapStore) (key : String) (ver : Nat) : Option KvError × MapStore :=
  (none, s.filter (fun p => !(p.key == key)))

/-- The collection loop of `MapStore.GetAll`: test every stored pair's key
against the pattern, propagating `ErrBadPattern` and keeping the matches in
iteration order. -/
def collectMatches (pattern : List Char) : List Pair → Except Unit (List Pair)
  | [] => .ok []
  | kv :: rest =>
    (matchPat pattern kv.key.data).bind
      (fun m =>
        if m then (collectMatches pattern rest).map (fun ks => kv :: ks)
        else collectMatches pattern rest)

/-- Lexicographic (byte-wise) comparison of strings as Go's `cmp.Compare`
performs it, on the code points of the characters; on well-formed UTF-8 the
byte-wise and code-point-wise orders agree. -/
def charsLe : List Char → List Char → Bool
  | [], _ => true
  | _ :: _, [] => false
  | a :: as, b :: bs =>
    if a.toNat < b.toNat then true
    else if a.toNat = b.toNat then charsLe as bs
    else false

theorem charsLe_total : ∀ (a b : List Char), charsLe a b = true ∨ charsLe b a = true := by
  intro a
  induction a with
  | nil => intro b; left; rfl
  | cons x as ih =>
    intro b
    cases b with
    | nil => right; rfl
    | cons y bs =>
      by_cases h1 : x.toNat < y.toNat
      · left
        simp [charsLe, h1]
      · by_cases h2 : x.toNat = y.toNat
        · cases ih bs with
          | inl h =>
            left
            simp [charsLe, h1, h2, h]
          | inr h =>
            right
            simp [charsLe, h2.symm, h]
        · right
          have h3 : y.toNat < x.toNat := by omega
          simp [charsLe, h3]

theorem charsLe_trans : ∀ (a b c : List Char),
    charsLe a b = true → charsLe b c = true → charsLe a c = true := by
  intro a
  induction a with
  | nil => intro b c hab hbc; rfl
  | cons x as ih =>
    intro b c hab hbc
    cases b with
    | nil =>
      rw [show charsLe (x :: as) [] = false from rfl] at hab
      exact Bool.noConfusion hab
    | cons y bs =>
      cases c with
      | nil =>
        rw [show charsLe (y :: bs) [] = false from rfl] at hbc
        exact Bool.noConfusion hbc
      | cons z cs =>
        simp only [charsLe] at hab hbc ⊢
        by_cases h1 : x.toNat < y.toNat
        · by_cases h2 : y.toNat < z.toNat
          · rw [if_pos (by omega : x.toNat < z.toNat)]
          · rw [if_neg h2] at hbc
            by_cases h4 : y.toNat = z.toNat
            · rw [if_pos (by omega : x.toNat < z.toNat)]
            · rw [if_neg h4] at hbc
              exact Bool.noConfusion hbc
        · rw [if_neg h1] at hab
          by_cases h3 : x.toNat = y.toNat
          · rw [if_pos h3] at hab
            by_cases h2 : y.toNat < z.toNat
            · rw [if_pos (by omega : x.toNat < z.toNat)]
            · rw [if_neg h2] at hbc
              by_cases h4 : y.toNat = z.toNat
              · rw [if_pos h4] at hbc
                rw [if_neg (by omega : ¬ x.toNat < z.toNat),
                    if_pos (by omega : x.toNat = z.toNat)]
                exact ih bs cs hab hbc
              · rw [if_neg h4] at hbc
                exact Bool.noConfusion hbc
          · rw [if_neg h3] at hab
            exact Bool.noConfusion hab

instance : IsTotal Pair (fun a b => charsLe a.key.data b.key.data = true) :=
  ⟨fun a b => charsLe_total a.key.data b.key.data⟩

instance : IsTrans Pair (fun a b => charsLe a.key.data b.key.data = true) :=
  ⟨fun _ _ _ h1 h2 => charsLe_trans _ _ _ h1 h2⟩

instance : IsTotal String (fun a b => charsLe a.data b.data = true) :=
  ⟨fun a b => charsLe_total a.data b.data⟩

instance : IsTrans String (fun a b => charsLe a.data b.data = true) :=
  ⟨fun _ _ _ h1 h2 => charsLe_trans _ _ _ h1 h2⟩

/-- `MapStore.GetAll`: the stored pairs whose keys match the glob pattern
per `path.Match`, sorted in ascending key order; `.error ()` when the
matcher reports the pattern bad (Go's `slices.SortFunc` with `cmp.Compare`
on unique keys is order-equivalent to this insertion sort). -/
def MapStore.GetAll (s : MapStore) (pattern : String) : Except Unit (List Pair) :=
  (collectMatches pattern.data s).map
    (List.insertionSort (fun a b => charsLe a.key.data b.key.data = true))

/-- `MapStore.GetAllValues`: the values of the matching pairs, sorted as
strings. -/
def MapStore.GetAllValues (s : MapStore) (pattern : String) : Except Unit (List String) :=
  (MapStore.GetAll s pattern).map
    (fun ks => List.insertionSort (fun a b : String => charsLe a.data b.data = true)
      (ks.map Pair.value))

end Kv

deriving instance DecidableEq for Except

namespace Regatta

theorem findTable_updateTable (ts : List Table) (n : String) (t t' : Table)
    (hf : findTable ts n = some t) (hn : t'.name = t.name) :
    findTable (updateTable ts n t') n = some t' := by
  induction ts with
  | nil => simp [findTable] at hf
  | cons a rest ih =>
    simp only [findTable] at hf
    simp only [updateTable]
    by_cases ha : (a.name == n) = true
    · rw [if_pos ha] at hf
      rw [if_pos ha]
      have ht : t = a := by simpa using hf.symm
      have hb : (t'.name == n) = true := by
        rw [show t'.name = a.name from ht ▸ hn]
        exact ha
      simp only [findTable]
      rw [if_pos hb]
    · rw [if_neg ha] at hf
      rw [if_neg ha]
      simp only [findTable]
      have hb : ¬ (a.name == n) = true := ha
      rw [if_neg hb]
      exact ih hf

theorem put_rev_aux {e : Engine} {req : PutRequest} {resp : PutResponse} {e' : Engine}
    (h : e.put req = .ok (resp, e')) :
    e'.revisionOf req.table = (e.revisionOf req.table).map (fun n => n + 1) := by
  unfold Engine.put at h
  split at h
  · simp at h
  · rename_i t hf
    simp only [Except.ok.injEq, Prod.mk.injEq] at h
    obtain ⟨-, he'⟩ := h
    subst he'
    unfold Engine.revisionOf
    simp only
    rw [findTable_updateTable e.tables req.table t
      { t with revision := t.revision + 1, store := storePut t.store req.key req.value }
      hf rfl, hf]
    rfl

theorem delete_rev_aux {e : Engine} {req : DeleteRangeRequest} {resp : DeleteRangeResponse}
    {e' : Engine} (h : e.deleteRange req = .ok (resp, e')) :
    e'.revisionOf req.table = (e.revisionOf req.table).map (fun n => n + 1) := by
  unfold Engine.deleteRange at h
  split at h
  · simp at h
  · rename_i t hf
    simp only [Except.ok.injEq, Prod.mk.injEq] at h
    obtain ⟨-, he'⟩ := h
    subst he'
    unfold Engine.revisionOf
    simp only
    rw [findTable_updateTable e.tables req.table t
      { t with revision := t.revision + 1,
               store := deleteRemaining t.store req.key req.rangeEnd }
      hf rfl, hf]
    rfl

theorem txn_rev_aux {e : Engine} {req : TxnRequest} {resp : TxnResponse} {e' : Engine}
    (h : e.txn req = .ok (resp, e')) :
    e'.revisionOf req.table = (e.revisionOf req.table).map (fun n => n + 1) := by
  unfold Engine.txn at h
  split at h
  · simp at h
  · rename_i t hf
    simp only [Except.ok.injEq, Prod.mk.injEq] at h
    obtain ⟨-, he'⟩ := h
    subst he'
    unfold Engine.revisionOf
    simp only
    rw [findTable_updateTable e.tables req.table t
      { t with revision := t.revision + 1,
               store := (runOps t.store (if req.compare.all (evalCompare t.store) = true
                 then req.success else req.failure)).1 }
      hf rfl, hf]
    rfl

/-- The byte strings used by the engine test suite: "key", "value",
"value2", "key2", "foo" (byte values of their ASCII characters). -/
def bKey : Bytes := [107, 101, 121]

def bValue : Bytes := [118, 97, 108, 117, 101]

def bValue2 : Bytes := [118, 97, 108, 117, 101, 50]

def bKey2 : Bytes := [107, 101, 121, 50]

def bFoo : Bytes := [102, 111, 111]

/-- The test engine right after `CreateTable("table")`: shard 10001,
bootstrap revision 2, empty store. -/
def demoEngine1 : Engine := Engine.createTable initEngine "table"

/-- The test engine after `Put("table", key, value)`: revision 3. -/
def demoEngine2 : Engine :=
  { replicaId := 1, nextShard := 10002
    tables := [⟨"table", 10001, 3, [(bKey, bValue)]⟩] }

/-- The test engine after a sentinel delete on the fresh table: revision 3,
empty store. -/
def demoEngineDel : Engine :=
  { replicaId := 1, nextShard := 10002
    tables := [⟨"table", 10001, 3, []⟩] }

/-- Claim C1: for every table, every successfully committed write-class
command (`Put`, `DeleteRange` — including a sentinel delete that removes
zero keys — and `Transaction`) advances that table's revision counter by
exactly one, atomically with command application and independently of how
many keys the command touched; a read-only `Range` step leaves the engine
state, and hence every table's revision, unchanged. -/
theorem write_commands_advance_revision_by_one_reads_never :
    (∀ (e : Engine) (req : PutRequest) (resp : PutResponse) (e' : Engine),
        e.put req = .ok (resp, e') →
        e'.revisionOf req.table = (e.revisionOf req.table).map (fun n => n + 1)) ∧
    (∀ (e : Engine) (req : DeleteRangeRequest) (resp : DeleteRangeResponse) (e' : Engine),
        e.deleteRange req = .ok (resp, e') →
        e'.revisionOf req.table = (e.revisionOf req.table).map (fun n => n + 1)) ∧
    (∀ (e : Engine) (req : TxnRequest) (resp : TxnResponse) (e' : Engine),
        e.txn req = .ok (resp, e') →
        e'.revisionOf req.table = (e.revisionOf req.table).map (fun n => n + 1)) ∧
    (∀ (e : Engine) (req : RangeRequest) (res : Except Err Response) (e' : Engine),
        e.step (.rangeReq req) = (res, e') → e' = e) :=
  ⟨fun _ _ _ _ h => put_rev_aux h,
   fun _ _ _ _ h => delete_rev_aux h,
   fun _ _ _ _ h => txn_rev_aux h,
   fun _ _ _ _ h => by
     simp only [Engine.step] at h
     exact (Prod.mk.injEq _ _ _ _ ▸ h).2.symm ▸ rfl⟩

/-- Witness for C1: a put, a sentinel delete and a transaction on the test
engine each bump the revision from 2 to 3; a range read leaves it at 2. -/
theorem write_commands_advance_revision_witness :
    (Engine.revisionOf demoEngine2 "table" =
      (Engine.revisionOf demoEngine1 "table").map (fun n => n + 1)) ∧
    (Engine.revisionOf demoEngineDel "table" =
      (Engine.revisionOf demoEngine1 "table").map (fun n => n + 1)) ∧
    (Engine.revisionOf demoEngineDel "table" =
      (Engine.revisionOf demoEngine1 "table").map (fun n => n + 1)) ∧
    demoEngine1 = demoEngine1 :=
  ⟨write_commands_advance_revision_by_one_reads_never.1 demoEngine1
      ⟨"table", bKey, bValue, false⟩ ⟨⟨10001, 1, 3⟩, none⟩ demoEngine2 (by decide),
   write_commands_advance_revision_by_one_reads_never.2.1 demoEngine1
      ⟨"table", [0], [0], false, false⟩ ⟨⟨10001, 1, 3⟩, 0, []⟩ demoEngineDel (by decide),
   write_commands_advance_revision_by_one_reads_never.2.2.1 demoEngine1
      ⟨"table", [], [], []⟩ ⟨⟨10001, 1, 3⟩, true, []⟩ demoEngineDel (by decide),
   write_commands_advance_revision_by_one_reads_never.2.2.2 demoEngine1
      ⟨"table", bKey, [], false⟩ (.error .notFound) demoEngine1 (by decide)⟩

/-- The test engine after overwriting "key" with "value2": revision 4. -/
def demoEngine3 : Engine :=
  { replicaId := 1, nextShard := 10002
    tables := [⟨"table", 10001, 4, [(bKey, bValue2)]⟩] }

/-- Claim C2: on a freshly created table the first `Put` commits at revision
3; a second `Put` of the same key commits at revision 4; when the second put
requests `prevKv`, the response also carries the prior pair (key, "value");
when the key did not previously exist, no `prevKv` is returned even if
requested. -/
theorem first_put_revision_3_second_4_with_prev_kv :
    Engine.put demoEngine1 ⟨"table", bKey, bValue, false⟩ =
      .ok (⟨⟨10001, 1, 3⟩, none⟩, demoEngine2) ∧
    Engine.put demoEngine2 ⟨"table", bKey, bValue2, false⟩ =
      .ok (⟨⟨10001, 1, 4⟩, none⟩, demoEngine3) ∧
    Engine.put demoEngine2 ⟨"table", bKey, bValue2, true⟩ =
      .ok (⟨⟨10001, 1, 4⟩, some ⟨bKey, bValue⟩⟩, demoEngine3) ∧
    Engine.put demoEngine1 ⟨"table", bKey, bValue, true⟩ =
      .ok (⟨⟨10001, 1, 3⟩, none⟩, demoEngine2) := by
  decide

/-- Claim C3: with "key" holding "value", a transaction whose single
equal-comparison expects "value" selects the success list and reports
`succeeded = true`; one expecting "foo" selects the failure list, reports
`succeeded = false`, and executes it exactly once, producing one response
entry per nested op in request order, including the `prevKv` of a nested
put; either way the revision advances exactly once, from 3 to 4. -/
theorem txn_branch_selection_and_single_revision_increment :
    Engine.txn demoEngine2
        ⟨"table", [⟨bKey, .eq, bValue⟩], [.putOp bKey2 bValue2 false], []⟩ =
      .ok (⟨⟨10001, 1, 4⟩, true, [.putOp none]⟩,
           { replicaId := 1, nextShard := 10002
             tables := [⟨"table", 10001, 4, [(bKey2, bValue2), (bKey, bValue)]⟩] }) ∧
    Engine.txn demoEngine2
        ⟨"table", [⟨bKey, .eq, bFoo⟩], [.putOp bKey2 bValue2 false],
         [.putOp bKey bValue2 true]⟩ =
      .ok (⟨⟨10001, 1, 4⟩, false, [.putOp (some ⟨bKey, bValue⟩)]⟩, demoEngine3) := by
  decide

/-- Claim C4: for every table state, a `DeleteRange` whose key and rangeEnd
both equal the single zero byte deletes every key in the table; `count=true`
reports the number of deleted keys without their values, `prevKv=true`
reports the deleted pairs; on an empty table the sentinel delete succeeds
with a deleted count of 0 rather than an error. -/
theorem sentinel_delete_removes_all_keys (e : Engine) (t : Table) (req : DeleteRangeRequest)
    (hf : findTable e.tables req.table = some t)
    (hk : req.key = [0]) (hr : req.rangeEnd = [0]) :
    e.deleteRange req =
      .ok ({ header := ⟨t.shardId, e.replicaId, t.revision + 1⟩
             deleted := if req.count || req.prevKv then t.store.length else 0
             prevKvs := if req.prevKv then t.store.map (fun p => ⟨p.1, p.2⟩) else [] },
           { e with tables :=
                        updateTable e.tables req.table
                          { t with revision := t.revision + 1, store := [] } }) ∧
    (t.store = [] → (if req.count || req.prevKv then t.store.length else 0) = 0) := by
  constructor
  · unfold Engine.deleteRange
    rw [hf]
    unfold deleteTargets deleteRemaining
    rw [hk, hr]
    simp [sentinelByte]
  · intro hempty
    rw [hempty]
    simp

/-- Witness for C4: the sentinel delete with `count` on the one-key test
table reports one deleted key at revision 4 and empties the store; on the
fresh empty table it succeeds with a count of 0 at revision 3. -/
theorem sentinel_delete_removes_all_keys_witness :
    Engine.deleteRange demoEngine2 ⟨"table", [0], [0], true, false⟩ =
      .ok (⟨⟨10001, 1, 4⟩, 1, []⟩,
           { replicaId := 1, nextShard := 10002, tables := [⟨"table", 10001, 4, []⟩] }) ∧
    Engine.deleteRange demoEngine1 ⟨"table", [0], [0], true, false⟩ =
      .ok (⟨⟨10001, 1, 3⟩, 0, []⟩, demoEngineDel) ∧
    (([] : Store) = [] → (0 : Nat) = 0) :=
  ⟨(sentinel_delete_removes_all_keys demoEngine2 ⟨"table", 10001, 3, [(bKey, bValue)]⟩
      ⟨"table", [0], [0], true, false⟩ (by decide) rfl rfl).1,
   (sentinel_delete_removes_all_keys demoEngine1 ⟨"table", 10001, 2, []⟩
      ⟨"table", [0], [0], true, false⟩ (by decide) rfl rfl).1,
   (sentinel_delete_removes_all_keys demoEngine1 ⟨"table", 10001, 2, []⟩
      ⟨"table", [0], [0], true, false⟩ (by decide) rfl rfl).2⟩

/-- Claim C5: every operation issued against an unregistered table name
returns the non-retryable not-found error — no result value at all, never an
empty response; a range read does so while performing zero consensus rounds;
not-found is distinct from the retryable unavailable and timeout errors. -/
theorem missing_table_returns_not_found (e : Engine) (name : String)
    (hf : findTable e.tables name = none) :
    (∀ req : RangeRequest, req.table = name → e.range req = (.error .notFound, 0)) ∧
    (∀ req : PutRequest, req.table = name → e.put req = .error .notFound) ∧
    (∀ req : DeleteRangeRequest, req.table = name → e.deleteRange req = .error .notFound) ∧
    (∀ req : TxnRequest, req.table = name → e.txn req = .error .notFound) ∧
    retryable .notFound = false ∧ retryable .unavailable = true ∧
    retryable .timeout = true ∧ Err.notFound ≠ Err.unavailable ∧
    Err.notFound ≠ Err.timeout := by
  refine ⟨?_, ?_, ?_, ?_, rfl, rfl, rfl, by decide, by decide⟩
  · intro req hreq
    rw [← hreq] at hf
    unfold Engine.range
    rw [hf]
  · intro req hreq
    rw [← hreq] at hf
    unfold Engine.put
    rw [hf]
  · intro req hreq
    rw [← hreq] at hf
    unfold Engine.deleteRange
    rw [hf]
  · intro req hreq
    rw [← hreq] at hf
    unfold Engine.txn
    rw [hf]

/-- Witness for C5: on a fresh engine with no tables, each operation against
"table" reports not-found, the range read without touching consensus. -/
theorem missing_table_returns_not_found_witness :
    Engine.range initEngine ⟨"table", bKey, [], false⟩ = (.error .notFound, 0) ∧
    Engine.put initEngine ⟨"table", bKey, bValue, false⟩ = .error .notFound ∧
    Engine.deleteRange initEngine ⟨"table", bKey, [], false, false⟩ = .error .notFound ∧
    Engine.txn initEngine ⟨"table", [], [], []⟩ = .error .notFound ∧
    retryable .notFound = false :=
  have h := missing_table_returns_not_found initEngine "table" (by decide)
  ⟨h.1 _ rfl, h.2.1 _ rfl, h.2.2.1 _ rfl, h.2.2.2.1 _ rfl, h.2.2.2.2.1⟩

/-- Claim C7: shard ids are assigned sequentially from the fixed base: the
first table created on a fresh engine receives shard id 10001; each creation
of a new name appends a table carrying the next shard id and bumps the
allocator; and the allocation preserves global uniqueness of shard ids
across tables. -/
theorem shard_ids_sequential_from_base :
    ((Engine.createTable initEngine "table").tables.map Table.shardId = [10001]) ∧
    (∀ (e : Engine) (name : String), findTable e.tables name = none →
        (e.createTable name).tables = e.tables ++ [⟨name, e.nextShard, 2, []⟩] ∧
        (e.createTable name).nextShard = e.nextShard + 1) ∧
    (∀ (e : Engine) (name : String),
        (∀ t ∈ e.tables, t.shardId < e.nextShard) →
        e.tables.Pairwise (fun a b => a.shardId ≠ b.shardId) →
        (∀ t ∈ (e.createTable name).tables, t.shardId < (e.createTable name).nextShard) ∧
        (e.createTable name).tables.Pairwise (fun a b => a.shardId ≠ b.shardId)) := by
  refine ⟨by decide, ?_, ?_⟩
  · intro e name hf
    unfold Engine.createTable
    rw [hf]
    exact ⟨rfl, rfl⟩
  · intro e name hbound hdist
    unfold Engine.createTable
    cases hf : findTable e.tables name with
    | some t => exact ⟨hbound, hdist⟩
    | none =>
      constructor
      · intro t ht
        simp only [List.mem_append, List.mem_singleton] at ht
        cases ht with
        | inl h => exact Nat.lt_succ_of_lt (hbound t h)
        | inr h => rw [h]; exact Nat.lt_succ_self _
      · rw [List.pairwise_append]
        refine ⟨hdist, List.pairwise_singleton _ _, ?_⟩
        intro a ha b hb
        simp only [List.mem_singleton] at hb
        rw [hb]
        exact Nat.ne_of_lt (hbound a ha)

/-- Witness for C7: creating "t2" on the engine that already holds "table"
(shard 10001) appends a table with shard id 10002, keeps both ids below the
next allocator value 10003, and keeps them pairwise distinct. -/
theorem shard_ids_sequential_from_base_witness :
    ((Engine.createTable demoEngine1 "t2").tables =
      demoEngine1.tables ++ [⟨"t2", 10002, 2, []⟩] ∧
     (Engine.createTable demoEngine1 "t2").nextShard = 10002 + 1) ∧
    ((∀ t ∈ (Engine.createTable demoEngine1 "t2").tables,
        t.shardId < (Engine.createTable demoEngine1 "t2").nextShard) ∧
     (Engine.createTable demoEngine1 "t2").tables.Pairwise
        (fun a b => a.shardId ≠ b.shardId)) :=
  ⟨shard_ids_sequential_from_base.2.1 demoEngine1 "t2" (by decide),
   shard_ids_sequential_from_base.2.2 demoEngine1 "t2"
     (by decide) (by decide)⟩

theorem runOps_length (st : Store) (ops : List RequestOp) :
    (runOps st ops).2.length = ops.length := by
  induction ops generalizing st with
  | nil => rfl
  | cons op rest ih => simp [runOps, ih]

/-- Claim C10: a transaction whose comparison list is empty selects the
success branch vacuously: it reports `succeeded = true`, executes the
success op-list, produces one response entry per success op, and advances
the revision by exactly one. -/
theorem txn_empty_compare_selects_success (e : Engine) (t : Table) (req : TxnRequest)
    (hf : findTable e.tables req.table = some t) (hc : req.compare = []) :
    e.txn req =
      .ok ({ header := ⟨t.shardId, e.replicaId, t.revision + 1⟩
             succeeded := true
             responses := (runOps t.store req.success).2 },
           { e with tables :=
                      updateTable e.tables req.table
                        { t with revision := t.revision + 1
                                 store := (runOps t.store req.success).1 } }) ∧
    (runOps t.store req.success).2.length = req.success.length := by
  refine ⟨?_, runOps_length t.store req.success⟩
  unfold Engine.txn
  rw [hf, hc]
  rfl

/-- Witness for C10: a compare-free transaction with one nested put on the
test table reports success with one response entry and commits at
revision 4. -/
theorem txn_empty_compare_selects_success_witness :
    Engine.txn demoEngine2 ⟨"table", [], [.putOp bKey2 bValue2 false], []⟩ =
      .ok (⟨⟨10001, 1, 4⟩, true, [.putOp none]⟩,
           { replicaId := 1, nextShard := 10002
             tables := [⟨"table", 10001, 4, [(bKey2, bValue2), (bKey, bValue)]⟩] }) ∧
    ([ResponseOp.putOp none].length = [RequestOp.putOp bKey2 bValue2 false].length) :=
  txn_empty_compare_selects_success demoEngine2 ⟨"table", 10001, 3, [(bKey, bValue)]⟩
    ⟨"table", [], [.putOp bKey2 bValue2 false], []⟩ (by decide) rfl

/-- Claim C6 (amended): every successful write response (`Put`,
`DeleteRange`, `Transaction`) carries a header with the table's shard id,
the node's replica id, and the table's revision at completion of the
operation; a successful `Range` response carries the shard id and replica id
but leaves the header revision at its zero value rather than the revision at
completion. -/
theorem response_header_contents (e : Engine) (t : Table) :
    (∀ (req : PutRequest) (resp : PutResponse) (e' : Engine),
        findTable e.tables req.table = some t → e.put req = .ok (resp, e') →
        resp.header = ⟨t.shardId, e.replicaId, t.revision + 1⟩ ∧
        e'.revisionOf req.table = some (t.revision + 1)) ∧
    (∀ (req : DeleteRangeRequest) (resp : DeleteRangeResponse) (e' : Engine),
        findTable e.tables req.table = some t → e.deleteRange req = .ok (resp, e') →
        resp.header = ⟨t.shardId, e.replicaId, t.revision + 1⟩ ∧
        e'.revisionOf req.table = some (t.revision + 1)) ∧
    (∀ (req : TxnRequest) (resp : TxnResponse) (e' : Engine),
        findTable e.tables req.table = some t → e.txn req = .ok (resp, e') →
        resp.header = ⟨t.shardId, e.replicaId, t.revision + 1⟩ ∧
        e'.revisionOf req.table = some (t.revision + 1)) ∧
    (∀ (req : RangeRequest) (resp : RangeResponse) (rounds : Nat),
        findTable e.tables req.table = some t → e.range req = (.ok resp, rounds) →
        resp.header.shardId = t.shardId ∧ resp.header.replicaId = e.replicaId ∧
        resp.header.revision = 0) := by
  refine ⟨?_, ?_, ?_, ?_⟩
  · intro req resp e' hf h
    have hrev := put_rev_aux h
    unfold Engine.put at h
    rw [hf] at h
    simp only [Except.ok.injEq, Prod.mk.injEq] at h
    obtain ⟨hresp, -⟩ := h
    rw [← hresp]
    refine ⟨rfl, ?_⟩
    rw [hrev]
    unfold Engine.revisionOf
    rw [hf]
    rfl
  · intro req resp e' hf h
    have hrev := delete_rev_aux h
    unfold Engine.deleteRange at h
    rw [hf] at h
    simp only [Except.ok.injEq, Prod.mk.injEq] at h
    obtain ⟨hresp, -⟩ := h
    rw [← hresp]
    refine ⟨rfl, ?_⟩
    rw [hrev]
    unfold Engine.revisionOf
    rw [hf]
    rfl
  · intro req resp e' hf h
    have hrev := txn_rev_aux h
    unfold Engine.txn at h
    rw [hf] at h
    simp only [Except.ok.injEq, Prod.mk.injEq] at h
    obtain ⟨hresp, -⟩ := h
    rw [← hresp]
    refine ⟨rfl, ?_⟩
    rw [hrev]
    unfold Engine.revisionOf
    rw [hf]
    rfl
  · intro req resp rounds hf h
    unfold Engine.range at h
    split at h
    · rename_i heq
      rw [hf] at heq
      simp at heq
    · rename_i t' heq
      rw [hf] at heq
      injection heq with ht
      subst ht
      by_cases hre : (req.rangeEnd == []) = true
      · rw [if_pos hre] at h
        cases hsg : storeGet t.store req.key with
        | none =>
          rw [hsg] at h
          simp at h
        | some v =>
          rw [hsg] at h
          simp only [Prod.mk.injEq, Except.ok.injEq] at h
          obtain ⟨hresp, -⟩ := h
          rw [← hresp]
          exact ⟨rfl, rfl, rfl⟩
      · rw [if_neg hre] at h
        simp only [Prod.mk.injEq, Except.ok.injEq] at h
        obtain ⟨hresp, -⟩ := h
        rw [← hresp]
        exact ⟨rfl, rfl, rfl⟩

/-- Witness for C6 (amended) on the test engine: the put header carries
(10001, 1, 3); the range header after that put carries (10001, 1, 0). -/
theorem response_header_contents_witness :
    ((⟨⟨10001, 1, 3⟩, none⟩ : PutResponse).header = ⟨10001, 1, 3⟩ ∧
      Engine.revisionOf demoEngine2 "table" = some 3) ∧
    ((⟨⟨10001, 1, 0⟩, [⟨bKey, bValue⟩], 1⟩ : RangeResponse).header.shardId = 10001 ∧
      (⟨⟨10001, 1, 0⟩, [⟨bKey, bValue⟩], 1⟩ : RangeResponse).header.replicaId = 1 ∧
      (⟨⟨10001, 1, 0⟩, [⟨bKey, bValue⟩], 1⟩ : RangeResponse).header.revision = 0) :=
  ⟨(response_header_contents demoEngine1 ⟨"table", 10001, 2, []⟩).1
      ⟨"table", bKey, bValue, false⟩ ⟨⟨10001, 1, 3⟩, none⟩ demoEngine2
      (by decide) (by decide),
   (response_header_contents demoEngine2 ⟨"table", 10001, 3, [(bKey, bValue)]⟩).2.2.2
      ⟨"table", bKey, [], false⟩ ⟨⟨10001, 1, 0⟩, [⟨bKey, bValue⟩], 1⟩ 0
      (by decide) (by decide)⟩

/-- Counterexample for C6 as stated: after the first put the table's
revision at completion is 3, yet the range response's header carries
revision 0, so a `Range` response does not report the revision at
completion. -/
theorem range_header_lacks_completion_revision :
    (Engine.range demoEngine2 ⟨"table", bKey, [], false⟩).1 =
      .ok ⟨⟨10001, 1, 0⟩, [⟨bKey, bValue⟩], 1⟩ ∧
    Engine.revisionOf demoEngine2 "table" = some 3 ∧
    (Engine.range demoEngine2 ⟨"table", bKey, [], false⟩).1.map
        (fun r => r.header.revision) ≠ .ok 3 := by
  decide

end Regatta

namespace Kv

theorem get_after_set (s : MapStore) (k v : String) (ver : Nat) :
    MapStore.Get (MapStore.Set s k v ver).2 k = (⟨k, v, ver⟩, none) := by
  unfold MapStore.Get MapStore.Set
  simp [List.find?]

theorem get_not_present (s : MapStore) (k : String) (h : ∀ p ∈ s, p.key ≠ k) :
    MapStore.Get s k = (zeroPair, some .notExist) := by
  unfold MapStore.Get
  have hn : s.find? (fun p => p.key == k) = none := by
    rw [List.find?_eq_none]
    intro p hp
    simpa using h p hp
  rw [hn]

theorem get_after_delete (s : MapStore) (k : String) (ver : Nat) :
    MapStore.Get (MapStore.Delete s k ver).2 k = (zeroPair, some .notExist) := by
  apply get_not_present
  intro p hp
  have hm := List.mem_filter.mp hp
  simpa using hm.2

/-- Claim C9: `Get` immediately after `Set(key, value, ver)` returns exactly
the stored pair with a nil error; `Get` of a key never set, or deleted since
its last set, returns the zero pair with `ErrNotExist`; and `Delete` always
returns nil, even for an absent key, ignoring its version argument. -/
theorem mapstore_get_set_delete_round_trip :
    (∀ (s : MapStore) (k v : String) (ver : Nat),
        (MapStore.Set s k v ver).1 = ⟨k, v, ver⟩ ∧
        MapStore.Get (MapStore.Set s k v ver).2 k = (⟨k, v, ver⟩, none)) ∧
    (∀ (s : MapStore) (k : String), (∀ p ∈ s, p.key ≠ k) →
        MapStore.Get s k = (zeroPair, some .notExist)) ∧
    (∀ (s : MapStore) (k : String) (ver : Nat),
        MapStore.Get (MapStore.Delete s k ver).2 k = (zeroPair, some .notExist)) ∧
    (∀ (s : MapStore) (k : String) (v1 v2 : Nat),
        MapStore.Delete s k v1 = MapStore.Delete s k v2 ∧
        (MapStore.Delete s k v1).1 = none) :=
  ⟨fun s k v ver => ⟨rfl, get_after_set s k v ver⟩,
   get_not_present,
   get_after_delete,
   fun _ _ _ _ => ⟨rfl, rfl⟩⟩

/-- The two-pair store used to exercise the metadata map claims. -/
def demoStore : MapStore := [⟨"kb", "2", 2⟩, ⟨"ka", "1", 1⟩]

/-- Witness for C9 on the two-pair store: a set/get round trip, a miss on a
never-set key, a miss after delete, and version-independence of delete. -/
theorem mapstore_round_trip_witness :
    (MapStore.Set demoStore "kc" "3" 7).1 = ⟨"kc", "3", 7⟩ ∧
    MapStore.Get (MapStore.Set demoStore "kc" "3" 7).2 "kc" = (⟨"kc", "3", 7⟩, none) ∧
    MapStore.Get demoStore "kc" = (zeroPair, some .notExist) ∧
    MapStore.Get (MapStore.Delete demoStore "ka" 9).2 "ka" = (zeroPair, some .notExist) ∧
    MapStore.Delete demoStore "ka" 5 = MapStore.Delete demoStore "ka" 6 :=
  have h := mapstore_get_set_delete_round_trip
  ⟨(h.1 demoStore "kc" "3" 7).1,
   (h.1 demoStore "kc" "3" 7).2,
   h.2.1 demoStore "kc" (by decide),
   h.2.2.1 demoStore "ka" 9,
   (h.2.2.2 demoStore "ka" 5 6).1⟩

theorem matchRangesF_indep : ∀ (fuel : Nat) (chunk : List Char) (nrange : Nat)
    (r r' : Char) (acc acc' : Bool),
    (matchRangesF r fuel chunk acc nrange).map Prod.snd =
      (matchRangesF r' fuel chunk acc' nrange).map Prod.snd := by
  intro fuel
  induction fuel with
  | zero => intro chunk nrange r r' acc acc'; rfl
  | succ n ih =>
    intro chunk nrange r r' acc acc'
    rw [matchRangesF, matchRangesF]
    by_cases hbr : chunk.head? = some ']' ∧ 0 < nrange
    · rw [if_pos hbr, if_pos hbr]
      rfl
    · rw [if_neg hbr, if_neg hbr]
      split
      · rfl
      · rename_i lo chunk1 heq
        by_cases hd : chunk1.head? = some '-'
        · rw [if_pos hd, if_pos hd]
          split
          · rfl
          · rename_i hi chunk2 heq2
            exact ih chunk2 (nrange + 1) r r' _ _
        · rw [if_neg hd, if_neg hd]
          exact ih chunk1 (nrange + 1) r r' _ _

theorem matchChunkF_isOk_indep : ∀ (fuel : Nat) (chunk s s' : List Char) (f f' : Bool),
    (matchChunkF fuel chunk s f).isOk = (matchChunkF fuel chunk s' f').isOk := by
  intro fuel
  induction fuel with
  | zero => intro chunk s s' f f'; rfl
  | succ n ih =>
    intro chunk s s' f f'
    rw [matchChunkF.eq_def, matchChunkF.eq_def]
    cases chunk with
    | nil =>
      simp only
      cases f <;> cases f' <;> rfl
    | cons c0 ctail =>
      simp only
      by_cases h1 : c0 = '['
      · rw [if_pos h1, if_pos h1]
        simp only [matchRanges]
        generalize (if f || s.isEmpty then nulChar else s.headD nulChar) = rr1
        generalize (if f' || s'.isEmpty then nulChar else s'.headD nulChar) = rr2
        generalize (if ctail.head? == some '^' then ctail.tail else ctail) = body
        have hind := matchRangesF_indep (body.length + 1) body 0 rr1 rr2 false false
        cases hmr : matchRangesF rr1 (body.length + 1) body false 0 with
        | error e =>
          cases hmr' : matchRangesF rr2 (body.length + 1) body false 0 with
          | error e2 => rfl
          | ok pr2 =>
            rw [hmr, hmr'] at hind
            simp [Except.map] at hind
        | ok pr =>
          obtain ⟨mtch, crest⟩ := pr
          cases hmr' : matchRangesF rr2 (body.length + 1) body false 0 with
          | error e2 =>
            rw [hmr, hmr'] at hind
            simp [Except.map] at hind
          | ok pr2 =>
            obtain ⟨mtch2, crest2⟩ := pr2
            rw [hmr, hmr'] at hind
            simp only [Except.map, Except.ok.injEq] at hind
            rw [← hind]
            exact ih crest _ _ _ _
      · rw [if_neg h1, if_neg h1]
        by_cases h2 : c0 = '?'
        · rw [if_pos h2, if_pos h2]
          repeat' split
          all_goals first | rfl | exact ih _ _ _ _ _
        · rw [if_neg h2, if_neg h2]
          by_cases h3 : c0 = '\\'
          · rw [if_pos h3, if_pos h3]
            cases ctail with
            | nil => rfl
            | cons d cmore =>
              repeat' split
              all_goals first | rfl | exact ih _ _ _ _ _
          · rw [if_neg h3, if_neg h3]
            repeat' split
            all_goals first | rfl | exact ih _ _ _ _ _

theorem matchChunk_error_chunkOk {chunk s : List Char} {f : Bool}
    (h : matchChunk chunk s f = .error ()) : chunkOk chunk = false := by
  unfold matchChunk at h
  unfold chunkOk matchChunk
  rw [matchChunkF_isOk_indep (chunk.length + 1) chunk [] s true f, h]
  rfl

theorem starLoop_error_chunkOk : ∀ (name chunk restPat : List Char),
    starLoop chunk restPat name = .error () → chunkOk chunk = false := by
  intro name
  induction name with
  | nil =>
    intro chunk restPat h
    simp [starLoop] at h
  | cons c ntail ih =>
    intro chunk restPat h
    rw [starLoop] at h
    by_cases hc : c = '/'
    · rw [if_pos hc] at h
      simp at h
    · rw [if_neg hc] at h
      cases hmc : matchChunk chunk ntail false with
      | error e => exact matchChunk_error_chunkOk hmc
      | ok pr =>
        rw [hmc] at h
        simp only [Except.bind] at h
        split at h
        · split at h
          · exact ih chunk restPat h
          · simp at h
        · exact ih chunk restPat h

theorem dropStars_eq_of_ne (c : Char) (t : List Char) (hc : ¬ c = '*') :
    dropStars (c :: t) = c :: t := by
  rw [dropStars.eq_def]
  split
  · rename_i rest h
    cases h
    exact absurd rfl hc
  · rfl

theorem scanBody_fst_ne (c : Char) (t : List Char) (hc : ¬ c = '*') :
    (scanBody false (c :: t)).1 ≠ [] := by
  rw [scanBody.eq_def]
  simp only
  repeat' split
  all_goals simp_all

theorem dropStars_head (p : List Char) : ¬ (dropStars p).head? = some '*' := by
  induction p with
  | nil => simp [dropStars]
  | cons c t ih =>
    by_cases hc : c = '*'
    · subst hc
      rw [show dropStars ('*' :: t) = dropStars t from rfl]
      exact ih
    · rw [dropStars_eq_of_ne c t hc]
      simp [hc]

theorem scanBody_fst_nil (q : List Char) (h : (scanBody false q).1 = []) :
    q = [] ∨ q.head? = some '*' := by
  cases q with
  | nil => exact Or.inl rfl
  | cons c t =>
    by_cases hc : c = '*'
    · right
      simp [hc]
    · exact absurd h (scanBody_fst_ne c t hc)

theorem scanChunk_chunk_nil (p : List Char) (h : (scanChunk p).2.1 = []) :
    (scanChunk p).2.2 = [] := by
  have h' : (scanBody false (dropStars p)).1 = [] := h
  show (scanBody false (dropStars p)).2 = []
  cases scanBody_fst_nil (dropStars p) h' with
  | inl hq =>
    rw [hq]
    rfl
  | inr hstar => exact absurd hstar (dropStars_head p)

theorem validateRest_nil (fuel : Nat) : validateRest fuel [] = Except.ok false := by
  cases fuel <;> rfl

theorem validateRest_error_patternOkF : ∀ (fuel : Nat) (pattern : List Char),
    validateRest fuel pattern = .error () → patternOkF fuel pattern = false := by
  intro fuel
  induction fuel with
  | zero =>
    intro pattern h
    by_cases hpe : pattern.isEmpty = true
    · rw [validateRest, if_pos hpe] at h
      exact absurd h (by simp)
    · rw [patternOkF, if_neg hpe]
  | succ n ih =>
    intro pattern h
    by_cases hpe : pattern.isEmpty = true
    · rw [validateRest, if_pos hpe] at h
      exact absurd h (by simp)
    · rw [validateRest, if_neg hpe] at h
      try simp only at h
      rw [patternOkF, if_neg hpe]
      try simp only
      by_cases hstar : ((scanChunk pattern).1 && (scanChunk pattern).2.1.isEmpty) = true
      · rw [if_pos hstar]
        exfalso
        have hch : (scanChunk pattern).2.1 = [] := by
          have hsp := (Bool.and_eq_true _ _).mp hstar
          simpa [List.isEmpty_iff] using hsp.2
        have hrest := scanChunk_chunk_nil pattern hch
        rw [hch] at h
        rw [show matchChunk [] [] false = Except.ok ([], true) from rfl] at h
        simp only [Except.bind] at h
        rw [hrest] at h
        rw [validateRest_nil n] at h
        simp at h
      · rw [if_neg hstar]
        cases hmc : matchChunk (scanChunk pattern).2.1 [] false with
        | error e =>
          rw [matchChunk_error_chunkOk hmc]
          rfl
        | ok pr =>
          rw [hmc] at h
          simp only [Except.bind] at h
          rw [ih _ h, Bool.and_false]

theorem matchPatF_error_patternOkF : ∀ (fuel : Nat) (pattern name : List Char),
    matchPatF fuel pattern name = .error () → patternOkF fuel pattern = false := by
  intro fuel
  induction fuel with
  | zero =>
    intro pattern name h
    by_cases hpe : pattern.isEmpty = true
    · rw [matchPatF, if_pos hpe] at h
      exact absurd h (by simp)
    · rw [patternOkF, if_neg hpe]
  | succ n ih =>
    intro pattern name h
    by_cases hpe : pattern.isEmpty = true
    · rw [matchPatF, if_pos hpe] at h
      exact absurd h (by simp)
    · rw [matchPatF, if_neg hpe] at h
      try simp only at h
      rw [patternOkF, if_neg hpe]
      try simp only
      by_cases hstar : ((scanChunk pattern).1 && (scanChunk pattern).2.1.isEmpty) = true
      · rw [if_pos hstar] at h
        simp at h
      · rw [if_neg hstar] at h
        rw [if_neg hstar]
        cases hmc : matchChunk (scanChunk pattern).2.1 name false with
        | error e =>
          rw [matchChunk_error_chunkOk hmc]
          rfl
        | ok pr =>
          rw [hmc] at h
          simp only [Except.bind] at h
          split at h
          · rw [ih _ _ h, Bool.and_false]
          · split at h
            · cases hsl : starLoop (scanChunk pattern).2.1 (scanChunk pattern).2.2 name with
              | error e =>
                rw [starLoop_error_chunkOk name (scanChunk pattern).2.1
                  (scanChunk pattern).2.2 hsl]
                rfl
              | ok o =>
                rw [hsl] at h
                simp only [Except.bind] at h
                match o with
                | some t' =>
                  rw [ih _ _ h, Bool.and_false]
                | none =>
                  rw [validateRest_error_patternOkF n _ h, Bool.and_false]
            · rw [validateRest_error_patternOkF n _ h, Bool.and_false]

theorem matchPat_error_patternOk {pattern name : List Char}
    (h : matchPat pattern name = .error ()) : patternOk pattern = false :=
  matchPatF_error_patternOkF (pattern.length + 1) pattern name h

theorem collectMatches_ok (pattern : List Char) : ∀ (s l : List Pair),
    collectMatches pattern s = .ok l →
    l = s.filter (fun kv => decide (matchPat pattern kv.key.data = Except.ok true)) := by
  intro s
  induction s with
  | nil =>
    intro l h
    simp only [collectMatches, Except.ok.injEq] at h
    simp [← h]
  | cons kv rest ih =>
    intro l h
    rw [collectMatches] at h
    cases hm : matchPat pattern kv.key.data with
    | error e =>
      rw [hm] at h
      simp [Except.bind] at h
    | ok b =>
      rw [hm] at h
      simp only [Except.bind] at h
      cases b with
      | true =>
        rw [if_pos rfl] at h
        cases hc : collectMatches pattern rest with
        | error e =>
          rw [hc] at h
          simp [Except.map] at h
        | ok ks =>
          rw [hc] at h
          simp only [Except.map, Except.ok.injEq] at h
          rw [← h, List.filter_cons]
          simp only [hm, ih ks hc]
          simp
      | false =>
        rw [if_neg (by simp)] at h
        rw [List.filter_cons]
        simp only [hm]
        simp only [ih l h]
        simp

theorem collectMatches_error (pattern : List Char) : ∀ (s : List Pair),
    collectMatches pattern s = .error () →
    ∃ kv ∈ s, matchPat pattern kv.key.data = .error () := by
  intro s
  induction s with
  | nil =>
    intro h
    simp [collectMatches] at h
  | cons kv rest ih =>
    intro h
    rw [collectMatches] at h
    cases hm : matchPat pattern kv.key.data with
    | error e =>
      exact ⟨kv, List.mem_cons_self _ _, by rw [hm]⟩
    | ok b =>
      rw [hm] at h
      simp only [Except.bind] at h
      cases b with
      | true =>
        rw [if_pos rfl] at h
        cases hc : collectMatches pattern rest with
        | error e =>
          obtain ⟨kv', hmem, herr⟩ := ih hc
          exact ⟨kv', List.mem_cons_of_mem _ hmem, herr⟩
        | ok ks =>
          rw [hc] at h
          simp [Except.map] at h
      | false =>
        rw [if_neg (by simp)] at h
        obtain ⟨kv', hmem, herr⟩ := ih h
        exact ⟨kv', List.mem_cons_of_mem _ hmem, herr⟩

/-- Claim C8: `MapStore.GetAll(pattern)` returns exactly the stored pairs
whose keys match the glob pattern under `path.Match` semantics, sorted in
ascending key order (the empty list exactly when none match), and it returns
an error only when the pattern itself is malformed (some chunk of it fails
the matcher's syntax check); `MapStore.GetAllValues` returns the matched
values sorted as strings. -/
theorem getAll_matches_sorted_error_only_bad_pattern (s : MapStore) (p : String) :
    (∀ l, MapStore.GetAll s p = .ok l →
        l.Perm (s.filter (fun kv => decide (matchPat p.data kv.key.data = Except.ok true))) ∧
        List.Sorted (fun a b : Pair => charsLe a.key.data b.key.data = true) l ∧
        (l = [] ↔ ∀ kv ∈ s, ¬ matchPat p.data kv.key.data = Except.ok true)) ∧
    (MapStore.GetAll s p = .error () → patternOk p.data = false) ∧
    (∀ vs, MapStore.GetAllValues s p = .ok vs →
        vs.Perm ((s.filter
            (fun kv => decide (matchPat p.data kv.key.data = Except.ok true))).map
          Pair.value) ∧
        List.Sorted (fun a b : String => charsLe a.data b.data = true) vs) := by
  have hmain : ∀ l, MapStore.GetAll s p = .ok l →
      l.Perm (s.filter (fun kv => decide (matchPat p.data kv.key.data = Except.ok true))) ∧
      List.Sorted (fun a b : Pair => charsLe a.key.data b.key.data = true) l ∧
      (l = [] ↔ ∀ kv ∈ s, ¬ matchPat p.data kv.key.data = Except.ok true) := by
    intro l h
    unfold MapStore.GetAll at h
    cases hc : collectMatches p.data s with
    | error e =>
      rw [hc] at h
      simp [Except.map] at h
    | ok ks =>
      rw [hc] at h
      simp only [Except.map, Except.ok.injEq] at h
      have hperm : l.Perm ks := by
        rw [← h]
        exact List.perm_insertionSort _ ks
      have hfil := collectMatches_ok p.data s ks hc
      have hp2 : l.Perm (s.filter
          (fun kv => decide (matchPat p.data kv.key.data = Except.ok true))) := by
        rw [← hfil]
        exact hperm
      refine ⟨hp2, ?_, ?_⟩
      · rw [← h]
        exact List.sorted_insertionSort _ ks
      · constructor
        · intro hl kv hkvmem
          have hfe : List.filter
              (fun kv => decide (matchPat p.data kv.key.data = Except.ok true)) s = [] := by
            rw [hl] at hp2
            exact (List.Perm.nil_eq hp2).symm
          have hnp := List.filter_eq_nil_iff.mp hfe kv hkvmem
          simpa using hnp
        · intro hall
          have hfe : List.filter
              (fun kv => decide (matchPat p.data kv.key.data = Except.ok true)) s = [] := by
            rw [List.filter_eq_nil_iff]
            intro a ha
            simpa using hall a ha
          rw [hfe] at hp2
          exact List.Perm.eq_nil hp2
  refine ⟨hmain, ?_, ?_⟩
  · intro h
    unfold MapStore.GetAll at h
    cases hc : collectMatches p.data s with
    | error e =>
      obtain ⟨kv, -, herr⟩ := collectMatches_error p.data s hc
      exact matchPat_error_patternOk herr
    | ok ks =>
      rw [hc] at h
      simp [Except.map] at h
  · intro vs h
    unfold MapStore.GetAllValues at h
    cases hga : MapStore.GetAll s p with
    | error e =>
      rw [hga] at h
      simp [Except.map] at h
    | ok ks =>
      rw [hga] at h
      simp only [Except.map, Except.ok.injEq] at h
      obtain ⟨hperm, -, -⟩ := hmain ks hga
      constructor
      · have h1 : vs.Perm (ks.map Pair.value) := by
          rw [← h]
          exact List.perm_insertionSort _ _
        exact h1.trans (List.Perm.map Pair.value hperm)
      · rw [← h]
        exact List.sorted_insertionSort _ _

/-- Witness for C8: on the two-pair store, pattern "k*" yields both pairs in
ascending key order and their values sorted; on a store holding key "ab" the
malformed pattern "ab*[" makes `GetAll` error, and that pattern indeed fails
the syntax check. -/
theorem getAll_matches_sorted_witness :
    (([⟨"ka", "1", 1⟩, ⟨"kb", "2", 2⟩] : List Pair).Perm
        (demoStore.filter
          (fun kv => decide (matchPat "k*".data kv.key.data = Except.ok true))) ∧
      List.Sorted (fun a b : Pair => charsLe a.key.data b.key.data = true)
        ([⟨"ka", "1", 1⟩, ⟨"kb", "2", 2⟩] : List Pair) ∧
      (([⟨"ka", "1", 1⟩, ⟨"kb", "2", 2⟩] : List Pair) = [] ↔
        ∀ kv ∈ demoStore, ¬ matchPat "k*".data kv.key.data = Except.ok true)) ∧
    patternOk "ab*[".data = false ∧
    ((["1", "2"] : List String).Perm
        ((demoStore.filter
          (fun kv => decide (matchPat "k*".data kv.key.data = Except.ok true))).map
            Pair.value) ∧
      List.Sorted (fun a b : String => charsLe a.data b.data = true) (["1", "2"] : List String)) :=
  ⟨(getAll_matches_sorted_error_only_bad_pattern demoStore "k*").1 _ (by decide),
   (getAll_matches_sorted_error_only_bad_pattern [⟨"ab", "x", 1⟩] "ab*[").2.1 (by decide),
   (getAll_matches_sorted_error_only_bad_pattern demoStore "k*").2.2 _ (by decide)⟩

end Kv
